import Mathlib

set_option maxRecDepth 4000

/-!
Verification development for the web-page text-extraction pipeline
(`scraper.py`, `text_processor.py`).

Texts are modelled as `List Char` (Python strings are sequences of Unicode
code points).  Python `float` ratio arithmetic is modelled with exact
rationals (`ℚ`); the numeric thresholds 0.2, 0.5, 0.8, 0.1, 0.3 of the
source are the exact rationals 1/5, 1/2, 4/5, 1/10, 3/10.  Network, HTML
parsing and codec behaviour of external libraries enter only as explicit
oracle parameters or hypotheses; every decision rule and threshold below is
transcribed from the source.
-/

/-- CJK test used throughout `scraper.py`: `'一' <= c <= '鿿'`. -/
def isCJK (c : Char) : Bool :=
  0x4E00 ≤ c.toNat && c.toNat ≤ 0x9FFF

/-- Partial model of Python `str.isalnum` for a single character, exact on
the character ranges exercised in this development: ASCII digits and
letters, and the CJK unified-ideograph block (Python classifies CJK
ideographs as alphanumeric, since they are letters of category Lo). -/
def pyIsAlnum (c : Char) : Bool :=
  (0x30 ≤ c.toNat && c.toNat ≤ 0x39) ||
  (0x41 ≤ c.toNat && c.toNat ≤ 0x5A) ||
  (0x61 ≤ c.toNat && c.toNat ≤ 0x7A) ||
  isCJK c

/-- Model of Python `str.isspace` for a single character (the whitespace
set also used by `str.strip()`): ASCII whitespace, the information
separators, and the Unicode space/line separators. -/
def pyIsSpace (c : Char) : Bool :=
  (0x09 ≤ c.toNat && c.toNat ≤ 0x0D) ||
  (0x1C ≤ c.toNat && c.toNat ≤ 0x1F) ||
  c.toNat = 0x20 || c.toNat = 0x85 || c.toNat = 0xA0 || c.toNat = 0x1680 ||
  (0x2000 ≤ c.toNat && c.toNat ≤ 0x200A) ||
  c.toNat = 0x2028 || c.toNat = 0x2029 || c.toNat = 0x202F ||
  c.toNat = 0x205F || c.toNat = 0x3000

/-- `chinese_chars` of `WebScraper.extract_text` (scraper.py line 421):
count of CJK ideographs in the text. -/
def chineseCount (t : List Char) : Nat := t.countP isCJK

/-- `alnum_chars` of `WebScraper.extract_text` (scraper.py line 422). -/
def alnumCount (t : List Char) : Nat := t.countP pyIsAlnum

/-- The "weird character" test of `extract_text` (scraper.py line 423) and
of `scrape_webpage_text` (line 545): code point above 127 and outside the
CJK ideograph block, the CJK symbols/punctuation block U+3000–U+303F and
the halfwidth/fullwidth forms block U+FF00–U+FFEF. -/
def weirdChar (c : Char) : Bool :=
  127 < c.toNat &&
  !(isCJK c ||
    (0x3000 ≤ c.toNat && c.toNat ≤ 0x303F) ||
    (0xFF00 ≤ c.toNat && c.toNat ≤ 0xFFEF))

/-- `weird_chars` of `extract_text` (scraper.py line 423). -/
def weirdCount (t : List Char) : Nat := t.countP weirdChar

/-- `total_chars` of `extract_text` (scraper.py line 424). -/
def totalChars (t : List Char) : Nat := t.length

/-- `valid_ratio = (chinese_chars + alnum_chars) / total_chars`
(scraper.py line 428). -/
def validRatio (t : List Char) : ℚ :=
  ((chineseCount t : ℚ) + (alnumCount t : ℚ)) / (totalChars t : ℚ)

/-- `weird_ratio = weird_chars / total_chars` (scraper.py line 429). -/
def weirdRatio (t : List Char) : ℚ :=
  (weirdCount t : ℚ) / (totalChars t : ℚ)

/-- Leading-whitespace removal: first half of Python `str.strip()`. -/
def stripStart (l : List Char) : List Char := l.dropWhile pyIsSpace

/-- Trailing-whitespace removal (Python `str.rstrip()`): drop the maximal
run of whitespace characters at the end of the list. -/
def stripEnd : List Char → List Char
  | [] => []
  | c :: rest =>
    let r := stripEnd rest
    if r = [] then (if pyIsSpace c then [] else [c]) else c :: r

/-- Model of Python `str.strip()` (no arguments): remove leading and
trailing whitespace. -/
def pythonStrip (l : List Char) : List Char := stripEnd (stripStart l)

/-- Model of Python `text.split('\n')`: split at every newline, keeping
empty segments (so `splitNL []` is `[[]]`, as `''.split('\n') == ['']`). -/
def splitNL : List Char → List (List Char)
  | [] => [[]]
  | c :: rest =>
    if c = '\n' then [] :: splitNL rest
    else
      match splitNL rest with
      | [] => [[c]]
      | l :: ls => (c :: l) :: ls

/-- Model of Python `'\n'.join(lines)`. -/
def joinNL : List (List Char) → List Char
  | [] => []
  | [l] => l
  | l :: l2 :: ls => l ++ '\n' :: joinNL (l2 :: ls)

/-- The code points with `127 < code < 256` that appear in the
"common punctuation" allow-list literal of `extract_text`
(scraper.py line 459).  At run time that literal is the concatenation of
two adjacent string literals; its characters with code point in the open
interval (127, 256) — the only ones the guard `127 < code < 256` can ever
test — are exactly U+00A1 … U+00BF without U+00AD. -/
def latin1PunctAllowList : List Nat :=
  [0xA1, 0xA2, 0xA3, 0xA4, 0xA5, 0xA6, 0xA7, 0xA8, 0xA9, 0xAA, 0xAB, 0xAC,
   0xAE, 0xAF, 0xB0, 0xB1, 0xB2, 0xB3, 0xB4, 0xB5, 0xB6, 0xB7, 0xB8, 0xB9,
   0xBA, 0xBB, 0xBC, 0xBD, 0xBE, 0xBF]

/-- The per-line "weird character" test of the salvage loop
(scraper.py lines 453-462): a character in the Latin-1 upper range that is
not in the punctuation allow-list, or any code point above 65535. -/
def lineWeirdChar (c : Char) : Bool :=
  (127 < c.toNat && c.toNat < 256 && !(latin1PunctAllowList.contains c.toNat)) ||
  65535 < c.toNat

/-- The keep decision of the salvage loop for one already-stripped line
(scraper.py lines 442-470): lines that are empty or shorter than 2
characters are skipped; a line is kept if it has at least 3 CJK
characters, or its valid-character ratio exceeds 0.8 and its weird
ratio (per `lineWeirdChar`) is below 0.1. -/
def lineKeep (line : List Char) : Bool :=
  if line.length < 2 then false
  else
    let lc := chineseCount line
    let la := alnumCount line
    let lt := line.length
    let lvr : ℚ := ((lc : ℚ) + (la : ℚ)) / (lt : ℚ)
    let lw := line.countP lineWeirdChar
    let lwr : ℚ := (lw : ℚ) / (lt : ℚ)
    decide (3 ≤ lc) || (decide (lvr > 4 / 5) && decide (lwr < 1 / 10))

/-- `filtered_text` of the salvage path (scraper.py lines 439-472): strip
each line of the text, keep the lines passing `lineKeep`, and rejoin with
newlines. -/
def salvageFiltered (text : List Char) : List Char :=
  joinNL (((splitNL text).map pythonStrip).filter lineKeep)

/-- The post-salvage weird test (scraper.py line 478): code point above
127 that is not a CJK ideograph (note: narrower than `weirdChar` — no
punctuation exemptions). -/
def salvageWeirdChar (c : Char) : Bool := 127 < c.toNat && !(isCJK c)

/-- The guidance message returned when extraction deems the content
insufficient (scraper.py lines 488 and 496; both occurrences are the same
82-character string starting with U+26A0 U+FE0F). -/
def insufficientMessage : List Char :=
  String.toList "⚠️ 该网页内容通过JavaScript动态加载，无法直接提取文本。\n请使用Selenium模式（在侧边栏勾选\"使用JavaScript渲染\"选项）来获取完整内容。"

/-- Result of the salvage path of `extract_text`
(scraper.py lines 438-498), given the full extracted text:
compute `filtered_text`; if it is non-blank and still poor
(fewer than 10 CJK characters, or post-salvage weird ratio above 0.3)
return the guidance message; otherwise if the stripped filtered text is
shorter than 100 characters, return it when it is non-empty with at least
5 CJK characters and the guidance message otherwise; otherwise return
`filtered_text`. -/
def salvageResult (text : List Char) : List Char :=
  let filtered := salvageFiltered text
  let fStrip := pythonStrip filtered
  let fChinese := chineseCount filtered
  let fWeird := filtered.countP salvageWeirdChar
  let fTotal := filtered.length
  if fStrip ≠ [] ∧ 0 < fTotal ∧
      (fChinese < 10 ∨ ((fWeird : ℚ) / (fTotal : ℚ)) > 3 / 10) then
    insufficientMessage
  else if fStrip.length < 100 then
    if fStrip ≠ [] ∧ 5 ≤ fChinese then fStrip else insufficientMessage
  else filtered

/-- `is_gibberish = weird_ratio > 0.2 and valid_ratio < 0.5`
(scraper.py line 432). -/
def isGibberish (t : List Char) : Bool :=
  decide (weirdRatio t > 1 / 5) && decide (validRatio t < 1 / 2)

/-- The salvage trigger of `extract_text` (scraper.py lines 427-434): the
text is non-empty, and either `is_gibberish` holds or the text is shorter
than 100 characters with fewer than 5 CJK characters. -/
def salvageTriggered (t : List Char) : Bool :=
  decide (0 < totalChars t) &&
  (isGibberish t || (decide (totalChars t < 100) && decide (chineseCount t < 5)))

/-- The quality stage of `WebScraper.extract_text`
(scraper.py lines 419-502), acting on the plain text already produced from
the parsed markup: run the salvage path when triggered, otherwise return
the text unchanged. -/
def extract_text_quality (t : List Char) : List Char :=
  if salvageTriggered t then salvageResult t else t

/-- The two-character string `"⚠️"` (U+26A0 U+FE0F) tested by
`sample_stripped.startswith("⚠️")` in `scrape_webpage_text`
(scraper.py line 541). -/
def warnMark : List Char := ['⚠', '️']

/-- Python `s.startswith(p)` for list models. -/
def pyStartsWith (s p : List Char) : Bool := s.take p.length = p

/-- `chinese_in_sample`: CJK count over the first 1000 characters of the
stripped sample (scraper.py line 542). -/
def sampleChinese (s : List Char) : Nat := chineseCount (s.take 1000)

/-- `weird_in_sample`: weird-character count over the first 1000
characters of the stripped sample (scraper.py line 545). -/
def sampleWeird (s : List Char) : Nat := (s.take 1000).countP weirdChar

/-- `weird_ratio` of `scrape_webpage_text` (scraper.py lines 546-547):
weird count divided by `min(1000, len(sample))`, and 0 for the empty
sample. -/
def sampleWeirdRatio (s : List Char) : ℚ :=
  let sampleTotal := min 1000 s.length
  if 0 < sampleTotal then (sampleWeird s : ℚ) / (sampleTotal : ℚ) else 0

/-- `is_valid` of `scrape_webpage_text` (scraper.py line 541): stripped
sample at least 100 characters long and not starting with the warning
mark. -/
def sampleIsValid (s : List Char) : Bool :=
  decide (100 ≤ s.length) && !(pyStartsWith s warnMark)

/-- `is_gibberish` of `scrape_webpage_text` (scraper.py line 550). -/
def sampleGibberish (s : List Char) : Bool :=
  decide (sampleWeirdRatio s > 3 / 10) && decide (sampleChinese s < 20)

/-- The escalation condition of `scrape_webpage_text`
(scraper.py line 551): the static extraction sample (stripped) triggers
the renderer path when it is not valid, or short with little CJK content,
or gibberish. -/
def escalateCond (s : List Char) : Bool :=
  !(sampleIsValid s) ||
  (decide (s.length < 200) && decide (sampleChinese s < 10)) ||
  sampleGibberish s

/-- The failure outcomes `scrape_webpage_text` can raise on the static
path (scraper.py lines 561, 566, 569). -/
inductive ScrapeError where
  /-- "无法获取网页内容" (line 569): the fetch produced no content. -/
  | noContent : ScrapeError
  /-- Renderer failed and the static text is below the 50-character floor
  (line 561); carries the static sample length for the message. -/
  | tooLittleAfterRenderFail (n : Nat) : ScrapeError
  /-- No renderer available and the static text is below the 50-character
  floor (line 566). -/
  | tooLittleNoRenderer : ScrapeError
deriving DecidableEq

/-- Oracle environment for one run of `WebScraper.scrape_webpage_text`
with `use_selenium = False` (the static path, scraper.py lines 533-573).
`fetchStatic` is the (deterministic) result of `self.fetch_html(url)`
(`none` models a `None` return), `extract` is `self.extract_text`,
`seleniumFetch` the outcome of `self.fetch_html_with_selenium(url)`
(`none` models the call raising). -/
structure ScrapeEnv where
  fetchStatic : Option (List Char)
  extract : List Char → List Char
  seleniumAvailable : Bool
  seleniumFetch : Option (List Char)

/-- `WebScraper.scrape_webpage_text` on the static path
(scraper.py lines 533-573).  An empty fetched document is falsy in
Python, so the quality gate block is skipped for it (line 535) and the
extraction of the empty document is returned directly. -/
def scrape_webpage_text (env : ScrapeEnv) : Except ScrapeError (List Char) :=
  match env.fetchStatic with
  | none => .error .noContent
  | some html =>
    if html = [] then .ok (env.extract html)
    else
      let sample := env.extract html
      let s := pythonStrip sample
      if escalateCond s then
        if env.seleniumAvailable then
          match env.seleniumFetch with
          | some rhtml => .ok (env.extract rhtml)
          | none =>
            if s.length < 50 then .error (.tooLittleAfterRenderFail s.length)
            else
              match env.fetchStatic with
              | none => .error .noContent
              | some h2 => .ok (env.extract h2)
        else
          if s.length < 50 then .error .tooLittleNoRenderer
          else .ok (env.extract html)
      else .ok (env.extract html)

/-- Outcome of one HTTP GET attempt inside `WebScraper.fetch_html`
(scraper.py lines 166-275). -/
inductive AttemptOutcome where
  | success (html : List Char) : AttemptOutcome
  | timeout : AttemptOutcome
  | connError : AttemptOutcome
  /-- `requests.exceptions.HTTPError` carrying an optional status code. -/
  | httpStatus (code : Option Nat) : AttemptOutcome
deriving DecidableEq

/-- The typed failures `fetch_html` raises (scraper.py lines 249-268). -/
inductive FetchError where
  | timeoutError : FetchError
  | connectionError : FetchError
  | accessDenied403 : FetchError
  | notFound404 : FetchError
  | serverError500 : FetchError
  | httpOther (code : Option Nat) : FetchError
deriving DecidableEq

/-- Status classification of `fetch_html` (scraper.py lines 260-268). -/
def classifyHttpStatus (code : Option Nat) : FetchError :=
  if code = some 403 then .accessDenied403
  else if code = some 404 then .notFound404
  else if code = some 500 then .serverError500
  else .httpOther code

/-- Observable trace of one `fetch_html` run: number of GET attempts
issued, the sleeps performed between attempts (in seconds), and the final
result (`none` models falling off the retry loop, scraper.py line 277). -/
structure FetchTrace where
  attempts : Nat
  sleeps : List Nat
  result : Option (Except FetchError (List Char))

/-- The retry loop of `fetch_html` (scraper.py lines 156-277), with the
network modelled by the oracle `out` giving the outcome of each attempt.
`attempt` is the current 0-based attempt index; `remaining` is
`max_retries - attempt`, so `remaining = 1` means this is the final
attempt (`attempt == max_retries - 1`).  Timeouts and connection errors
sleep 2 seconds and retry unless on the final attempt, then raise the
typed error; HTTP status errors raise immediately. -/
def fetchLoop (out : Nat → AttemptOutcome) (attempt : Nat) :
    Nat → FetchTrace
  | 0 => ⟨0, [], none⟩
  | remaining + 1 =>
    match out attempt with
    | .success h => ⟨1, [], some (.ok h)⟩
    | .timeout =>
      if remaining = 0 then ⟨1, [], some (.error .timeoutError)⟩
      else
        let t := fetchLoop out (attempt + 1) remaining
        ⟨t.attempts + 1, 2 :: t.sleeps, t.result⟩
    | .connError =>
      if remaining = 0 then ⟨1, [], some (.error .connectionError)⟩
      else
        let t := fetchLoop out (attempt + 1) remaining
        ⟨t.attempts + 1, 2 :: t.sleeps, t.result⟩
    | .httpStatus c => ⟨1, [], some (.error (classifyHttpStatus c))⟩

/-- `WebScraper.fetch_html` as a trace over the attempt oracle, for a
given `max_retries` (`self.max_retries` defaults to 3,
scraper.py line 104). -/
def fetch_html (out : Nat → AttemptOutcome) (maxRetries : Nat) : FetchTrace :=
  fetchLoop out 0 maxRetries

/-- The default `self.max_retries = 3` (scraper.py line 104). -/
def defaultMaxRetries : Nat := 3

/-- The typed error corresponding to a transient attempt outcome. -/
def transientError : AttemptOutcome → FetchError
  | .timeout => .timeoutError
  | _ => .connectionError

/-- ASCII lower-casing of a character (model of Python `str.lower()` on
the ASCII encoding names compared by the cascade gates). -/
def lowerChar (c : Char) : Char :=
  if 0x41 ≤ c.toNat ∧ c.toNat ≤ 0x5A then Char.ofNat (c.toNat + 32) else c

/-- ASCII lower-casing of a string. -/
def lowerString (s : String) : String := String.mk (s.data.map lowerChar)

/-- The Latin-1 family list of the charset-stage and final-fallback gates
(`['iso-8859-1', 'latin1']`, scraper.py lines 184 and 234). -/
def latin1FamilyA (e : String) : Bool :=
  lowerString e = "iso-8859-1" || lowerString e = "latin1"

/-- The wider Latin-1 family list of the probe-stage gate
(`['iso-8859-1', 'latin1', 'cp1252']`, scraper.py line 209). -/
def latin1FamilyB (e : String) : Bool :=
  latin1FamilyA e || lowerString e = "cp1252"

/-- `not response.encoding or response.encoding.lower() in [...]` with the
narrow list (scraper.py lines 184 and 234). -/
def gateA : Option String → Bool
  | none => true
  | some e => latin1FamilyA e

/-- Same gate with the wider list (scraper.py line 209). -/
def gateB : Option String → Bool
  | none => true
  | some e => latin1FamilyB e

/-- Oracle environment for the encoding-resolution cascade of `fetch_html`
(scraper.py lines 177-236).  `transportEncoding` is the initial
`response.encoding` (the HTTP-header charset or the Latin-1 HTTP default;
`none` for a falsy value), `apparentEncoding` is `response.apparent_encoding`
(the content-based detector), `htmlCharset` is the in-document
`charset=` declaration found by the regex scan, already `.strip().lower()`
normalized (`none` when the regex finds none), and `decode e` is the
strict decode `response.content.decode(e)` (`none` when it raises). -/
structure EncodingEnv where
  transportEncoding : Option String
  apparentEncoding : Option String
  htmlCharset : Option String
  decode : String → Option (List Char)

/-- The fixed ordered probe candidates (scraper.py line 211). -/
def probeCandidates : List String := ["utf-8", "gbk", "gb2312", "gb18030"]

/-- The probe score (scraper.py line 225): number of characters among the
first 500 decoded characters that are CJK ideographs, alphanumeric, or
whitespace. -/
def plausibleCount (t : List Char) : Nat :=
  (t.take 500).countP (fun c => isCJK c || pyIsAlnum c || pyIsSpace c)

/-- The probe stage body (scraper.py lines 211-231): try each candidate in
order; accept the first whose full decode succeeds and whose probe score
exceeds 50; failed decodes and low scores just continue. -/
def probeEncodings (decode : String → Option (List Char)) :
    List String → Option String
  | [] => none
  | e :: rest =>
    match decode e with
    | none => probeEncodings decode rest
    | some t =>
      if 50 < plausibleCount t then some e else probeEncodings decode rest

/-- Stage 1 (scraper.py lines 179-181): if the content-based detector
produced a (truthy) guess, it overwrites `response.encoding`
unconditionally; otherwise the transport value stands. -/
def encStage1 (env : EncodingEnv) : Option String :=
  match env.apparentEncoding with
  | some a => some a
  | none => env.transportEncoding

/-- Stage 2 (scraper.py lines 184-206): when the current answer is absent
or Latin-1 family, use the in-document charset declaration provided its
full decode succeeds and is non-empty. -/
def encStage2 (env : EncodingEnv) (enc : Option String) : Option String :=
  if gateA enc then
    match env.htmlCharset with
    | none => enc
    | some cs =>
      match env.decode cs with
      | some t => if t ≠ [] then some cs else enc
      | none => enc
  else enc

/-- Stage 3 (scraper.py lines 209-231): when the current answer is absent
or in the wider Latin-1 family, run the probe over the fixed candidate
list. -/
def encStage3 (env : EncodingEnv) (enc : Option String) : Option String :=
  if gateB enc then
    match probeEncodings env.decode probeCandidates with
    | some e => some e
    | none => enc
  else enc

/-- Stage 4 (scraper.py lines 234-236): when the answer is still absent
or Latin-1 family, fall back to the detector's guess or UTF-8. -/
def encStage4 (env : EncodingEnv) (enc : Option String) : Option String :=
  if gateA enc then some (env.apparentEncoding.getD "utf-8") else enc

/-- The full encoding-resolution cascade of `fetch_html`
(scraper.py lines 177-236). -/
def resolveEncoding (env : EncodingEnv) : Option String :=
  encStage4 env (encStage3 env (encStage2 env (encStage1 env)))

/-- Markup fragments over which the extraction front end is modelled:
either a single content container wrapping tag-free text (one text node),
or bare tag-free text. -/
inductive MiniMarkup where
  | wrapped (tag : String) (body : List Char) : MiniMarkup
  | plain (text : List Char) : MiniMarkup

/-- Modelled from the source's use of BeautifulSoup
(scraper.py lines 404-417): `get_text(separator='\n', strip=True)` over a
document whose body is a single text node strips that node; this is the
value whether or not the container matches a `content_selectors` entry,
since the container and the whole document hold the same single text
node. -/
def getTextModel : MiniMarkup → List Char
  | .wrapped _ body => pythonStrip body
  | .plain t => pythonStrip t

/-- `WebScraper.extract_text` (scraper.py lines 340-502) on the modelled
markup fragments: text extraction followed by the quality stage. -/
def extract_text (m : MiniMarkup) : List Char :=
  extract_text_quality (getTextModel m)

/-- Replacement of every run of three or more newlines by exactly two:
`re.sub(r'\n{3,}', '\n\n', text)` (text_processor.py line 54).
`pending` counts the newlines read but not yet emitted. -/
def collapseNLEmit (pending : Nat) : List Char :=
  if 3 ≤ pending then ['\n', '\n'] else List.replicate pending '\n'

/-- Worker for `collapseNL`. -/
def collapseNLAux : List Char → Nat → List Char
  | [], pending => collapseNLEmit pending
  | c :: rest, pending =>
    if c = '\n' then collapseNLAux rest (pending + 1)
    else collapseNLEmit pending ++ c :: collapseNLAux rest 0

/-- `re.sub(r'\n{3,}', '\n\n', text)` (text_processor.py line 54): the
regex greedily matches each maximal run of at least three newlines and
replaces it by two. -/
def collapseNL (s : List Char) : List Char := collapseNLAux s 0

/-- The blank-collapsing loop of `clean_text`
(text_processor.py lines 69-84): keep non-empty lines; keep an empty line
only when the previous kept line was not empty. -/
def collapseBlankLines : List (List Char) → Bool → List (List Char)
  | [], _ => []
  | l :: ls, prevEmpty =>
    if l = [] then
      if prevEmpty then collapseBlankLines ls true
      else [] :: collapseBlankLines ls true
    else l :: collapseBlankLines ls false

/-- The trailing-blank removal of `clean_text`
(text_processor.py lines 91-93). -/
def dropTrailingBlank (L : List (List Char)) : List (List Char) :=
  (L.reverse.dropWhile (fun l => l.isEmpty)).reverse

/-- `TextProcessor.clean_text` (text_processor.py lines 29-97): empty
input returns empty; otherwise collapse newline runs, split into lines,
strip each line, collapse consecutive blank lines, drop trailing blank
lines, and rejoin. -/
def clean_text (t : List Char) : List Char :=
  if t = [] then []
  else
    joinNL (dropTrailingBlank
      (collapseBlankLines ((splitNL (collapseNL t)).map pythonStrip) false))

/-- No window of three consecutive newlines occurs in the list (the
condition under which the `\n{3,}` substitution is the identity). -/
def noTripleNL : List Char → Bool
  | a :: b :: c :: rest =>
    !(a = '\n' && b = '\n' && c = '\n') && noTripleNL (b :: c :: rest)
  | _ => true

/-- Length of the leading newline run. -/
def leadingNL : List Char → Nat
  | [] => 0
  | c :: rest => if c = '\n' then leadingNL rest + 1 else 0

/-- No two adjacent elements of the line list are both empty. -/
def noAdjEmpty (L : List (List Char)) : Prop :=
  List.Chain' (fun a b => a ≠ [] ∨ b ≠ []) L

/-- Integer-arithmetic twin of `salvageTriggered` (same decisions with the
rational threshold comparisons cross-multiplied; proved equal in
`salvageTriggered_eqN`), used to evaluate concrete instances. -/
def salvageTriggeredN (t : List Char) : Bool :=
  decide (0 < t.length) &&
  ((decide (t.length < 5 * weirdCount t) &&
    decide (2 * (chineseCount t + alnumCount t) < t.length)) ||
   (decide (t.length < 100) && decide (chineseCount t < 5)))

/-- Integer-arithmetic twin of `lineKeep` (proved equal in
`lineKeep_eqN`). -/
def lineKeepN (line : List Char) : Bool :=
  if line.length < 2 then false
  else
    decide (3 ≤ chineseCount line) ||
    (decide (4 * line.length < 5 * (chineseCount line + alnumCount line)) &&
     decide (10 * line.countP lineWeirdChar < line.length))

/-- Integer-arithmetic twin of `salvageFiltered`. -/
def salvageFilteredN (text : List Char) : List Char :=
  joinNL (((splitNL text).map pythonStrip).filter lineKeepN)

/-- Integer-arithmetic twin of `salvageResult` (proved equal in
`salvageResult_eqN`). -/
def salvageResultN (text : List Char) : List Char :=
  let filtered := salvageFilteredN text
  let fStrip := pythonStrip filtered
  if fStrip ≠ [] ∧ 0 < filtered.length ∧
      (chineseCount filtered < 10 ∨
        3 * filtered.length < 10 * filtered.countP salvageWeirdChar) then
    insufficientMessage
  else if fStrip.length < 100 then
    if fStrip ≠ [] ∧ 5 ≤ chineseCount filtered then fStrip
    else insufficientMessage
  else filtered

/-- Integer-arithmetic twin of `extract_text_quality` (proved equal in
`extract_text_quality_eqN`). -/
def extract_text_qualityN (t : List Char) : List Char :=
  if salvageTriggeredN t then salvageResultN t else t

/-- Integer-arithmetic twin of `escalateCond` (proved equal in
`escalateCond_eqN`). -/
def escalateCondN (s : List Char) : Bool :=
  !(sampleIsValid s) ||
  (decide (s.length < 200) && decide (sampleChinese s < 10)) ||
  (decide (3 * min 1000 s.length < 10 * sampleWeird s) &&
   decide (sampleChinese s < 20))

/- ------------------------------------------------------------------ -/
/- Theorems.                                                           -/
/- ------------------------------------------------------------------ -/

theorem dropWhile_dropWhile (p : Char → Bool) (l : List Char) :
    (l.dropWhile p).dropWhile p = l.dropWhile p := by
  induction l with
  | nil => rfl
  | cons c rest ih =>
    by_cases h : p c <;> simp [List.dropWhile_cons, h, ih]

theorem stripEnd_idem (l : List Char) : stripEnd (stripEnd l) = stripEnd l := by
  induction l with
  | nil => rfl
  | cons c rest ih =>
    by_cases hr : stripEnd rest = []
    · by_cases hc : pyIsSpace c <;> simp [stripEnd, hr, hc]
    · simp [stripEnd, hr, ih]

theorem stripEnd_eq_nil_iff (l : List Char) :
    stripEnd l = [] ↔ ∀ c ∈ l, pyIsSpace c = true := by
  induction l with
  | nil => simp [stripEnd]
  | cons c rest ih =>
    by_cases hr : stripEnd rest = []
    · have hall : ∀ x ∈ rest, pyIsSpace x = true := ih.mp hr
      constructor
      · intro h x hx
        rcases List.mem_cons.mp hx with rfl | hx'
        · by_cases hc : pyIsSpace x
          · exact hc
          · exfalso; simp [stripEnd, hr, hc] at h
        · exact hall x hx'
      · intro h
        have hc := h c (List.mem_cons_self c rest)
        simp [stripEnd, hr, hc]
    · constructor
      · intro h; exfalso; simp [stripEnd, hr] at h
      · intro h
        exact absurd (ih.mpr fun x hx => h x (List.mem_cons_of_mem _ hx)) hr

theorem dropWhile_stripEnd_comm (l : List Char) :
    (stripEnd l).dropWhile pyIsSpace = stripEnd (l.dropWhile pyIsSpace) := by
  induction l with
  | nil => rfl
  | cons c rest ih =>
    by_cases hc : pyIsSpace c
    · by_cases hr : stripEnd rest = []
      · have hall : ∀ x ∈ rest, pyIsSpace x = true := (stripEnd_eq_nil_iff rest).mp hr
        have hdrop : rest.dropWhile pyIsSpace = [] := List.dropWhile_eq_nil_iff.mpr hall
        simp [stripEnd, hr, hc, List.dropWhile_cons, hdrop]
      · simp [stripEnd, hr, List.dropWhile_cons, hc, ih]
    · by_cases hr : stripEnd rest = []
      · simp [stripEnd, hr, hc, List.dropWhile_cons]
      · simp [stripEnd, hr, hc, List.dropWhile_cons]

theorem pythonStrip_idem (l : List Char) :
    pythonStrip (pythonStrip l) = pythonStrip l := by
  unfold pythonStrip stripStart
  rw [dropWhile_stripEnd_comm, dropWhile_dropWhile, stripEnd_idem]

theorem nat_div_lt_div_iff (a b p q : ℕ) (hb : 0 < b) (hq : 0 < q) :
    ((a : ℚ) / (b : ℚ) < (p : ℚ) / (q : ℚ)) ↔ a * q < p * b := by
  rw [div_lt_div_iff₀ (by exact_mod_cast hb) (by exact_mod_cast hq)]
  exact_mod_cast Iff.rfl

theorem salvageTriggered_eqN (t : List Char) :
    salvageTriggered t = salvageTriggeredN t := by
  by_cases h : t.length = 0
  · simp [salvageTriggered, salvageTriggeredN, totalChars, h]
  · have hT : 0 < t.length := Nat.pos_of_ne_zero h
    have h1 : weirdRatio t > 1 / 5 ↔ t.length < 5 * weirdCount t := by
      unfold weirdRatio totalChars
      rw [gt_iff_lt, show ((1 : ℚ) / 5) = ((1 : ℕ) : ℚ) / ((5 : ℕ) : ℚ) by norm_num,
        nat_div_lt_div_iff 1 5 (weirdCount t) t.length (by norm_num) hT]
      omega
    have h2 : validRatio t < 1 / 2 ↔ 2 * (chineseCount t + alnumCount t) < t.length := by
      unfold validRatio totalChars
      rw [show ((1 : ℚ) / 2) = ((1 : ℕ) : ℚ) / ((2 : ℕ) : ℚ) by norm_num,
        show ((chineseCount t : ℚ) + (alnumCount t : ℚ))
            = ((chineseCount t + alnumCount t : ℕ) : ℚ) by push_cast; ring,
        nat_div_lt_div_iff (chineseCount t + alnumCount t) t.length 1 2 hT (by norm_num)]
      omega
    simp only [salvageTriggered, salvageTriggeredN, isGibberish, totalChars,
      decide_eq_decide.mpr h1, decide_eq_decide.mpr h2]

theorem lineKeep_eqN (line : List Char) : lineKeep line = lineKeepN line := by
  by_cases h : line.length < 2
  · simp [lineKeep, lineKeepN, h]
  · have hT : 0 < line.length := by omega
    have h1 : ((chineseCount line : ℚ) + (alnumCount line : ℚ)) / (line.length : ℚ) > 4 / 5 ↔
        4 * line.length < 5 * (chineseCount line + alnumCount line) := by
      rw [gt_iff_lt, show ((4 : ℚ) / 5) = ((4 : ℕ) : ℚ) / ((5 : ℕ) : ℚ) by norm_num,
        show ((chineseCount line : ℚ) + (alnumCount line : ℚ))
            = ((chineseCount line + alnumCount line : ℕ) : ℚ) by push_cast; ring,
        nat_div_lt_div_iff 4 5 (chineseCount line + alnumCount line) line.length
          (by norm_num) hT]
      omega
    have h2 : ((line.countP lineWeirdChar : ℚ)) / (line.length : ℚ) < 1 / 10 ↔
        10 * line.countP lineWeirdChar < line.length := by
      rw [show ((1 : ℚ) / 10) = ((1 : ℕ) : ℚ) / ((10 : ℕ) : ℚ) by norm_num,
        nat_div_lt_div_iff (line.countP lineWeirdChar) line.length 1 10 hT (by norm_num)]
      omega
    simp only [lineKeep, lineKeepN, h, if_false,
      decide_eq_decide.mpr h1, decide_eq_decide.mpr h2]

theorem salvageFiltered_eqN (text : List Char) :
    salvageFiltered text = salvageFilteredN text := by
  unfold salvageFiltered salvageFilteredN
  rw [show lineKeep = lineKeepN from funext lineKeep_eqN]

theorem salvageResult_eqN (text : List Char) :
    salvageResult text = salvageResultN text := by
  unfold salvageResult salvageResultN
  rw [salvageFiltered_eqN]
  by_cases hT : 0 < (salvageFilteredN text).length
  · have h1 : ((salvageFilteredN text).countP salvageWeirdChar : ℚ) /
          ((salvageFilteredN text).length : ℚ) > 3 / 10 ↔
        3 * (salvageFilteredN text).length <
          10 * (salvageFilteredN text).countP salvageWeirdChar := by
      rw [gt_iff_lt, show ((3 : ℚ) / 10) = ((3 : ℕ) : ℚ) / ((10 : ℕ) : ℚ) by norm_num,
        nat_div_lt_div_iff 3 10 ((salvageFilteredN text).countP salvageWeirdChar)
          (salvageFilteredN text).length (by norm_num) hT]
      omega
    simp only [h1]
  · have hz : (salvageFilteredN text).length = 0 := by omega
    simp [hz]

theorem extract_text_quality_eqN (t : List Char) :
    extract_text_quality t = extract_text_qualityN t := by
  unfold extract_text_quality extract_text_qualityN
  rw [salvageTriggered_eqN, salvageResult_eqN]

theorem escalateCond_eqN (s : List Char) : escalateCond s = escalateCondN s := by
  have h1 : sampleWeirdRatio s > 3 / 10 ↔
      3 * min 1000 s.length < 10 * sampleWeird s := by
    by_cases hT : 0 < min 1000 s.length
    · unfold sampleWeirdRatio
      rw [if_pos hT, gt_iff_lt,
        show ((3 : ℚ) / 10) = ((3 : ℕ) : ℚ) / ((10 : ℕ) : ℚ) by norm_num,
        nat_div_lt_div_iff 3 10 (sampleWeird s) (min 1000 s.length) (by norm_num) hT]
      omega
    · have hz : min 1000 s.length = 0 := by omega
      have hs : s = [] := List.length_eq_zero.mp (by omega)
      subst hs
      constructor
      · intro hgt
        exact absurd (by simpa [sampleWeirdRatio] using hgt) (by norm_num)
      · intro hlt
        simp [sampleWeird] at hlt
  simp only [escalateCond, escalateCondN, sampleGibberish, decide_eq_decide.mpr h1]

/-- C1, counterexample: on a text of three CJK ideographs the
`valid_ratio` computed by `extract_text` equals 2, because Python's
`isalnum` is true for CJK ideographs, so each of them is counted both by
`chinese_chars` and by `alnum_chars`; the claimed bound `validRatio ≤ 1`
fails while `totalChars > 0`. -/
theorem C1_counterexample :
    0 < totalChars (List.replicate 3 '中') ∧
    validRatio (List.replicate 3 '中') = 2 ∧
    ¬ (validRatio (List.replicate 3 '中') ≤ 1) := by
  have hc : chineseCount (List.replicate 3 '中') = 3 := by decide
  have ha : alnumCount (List.replicate 3 '中') = 3 := by decide
  have ht : totalChars (List.replicate 3 '中') = 3 := by decide
  have hval : validRatio (List.replicate 3 '中') = 2 := by
    rw [validRatio, hc, ha, ht]; norm_num
  exact ⟨by decide, hval, by rw [hval]; norm_num⟩

/-- C1, amended: for every extracted text with `totalChars > 0` the
ratios computed by `extract_text` satisfy `0 ≤ weirdRatio ≤ 1` and
`0 ≤ validRatio ≤ 2`; the upper bound on `validRatio` is 2 rather than 1
because a CJK ideograph is counted both as CJK and as alphanumeric. -/
theorem C1_ratio_bounds (t : List Char) (h : 0 < totalChars t) :
    0 ≤ validRatio t ∧ validRatio t ≤ 2 ∧
    0 ≤ weirdRatio t ∧ weirdRatio t ≤ 1 := by
  have htot : (0 : ℚ) < (totalChars t : ℚ) := by exact_mod_cast h
  have hc : chineseCount t ≤ totalChars t := List.countP_le_length isCJK
  have ha : alnumCount t ≤ totalChars t := List.countP_le_length pyIsAlnum
  have hw : weirdCount t ≤ totalChars t := List.countP_le_length weirdChar
  refine ⟨?_, ?_, ?_, ?_⟩
  · unfold validRatio; positivity
  · unfold validRatio
    rw [div_le_iff₀ htot]
    have h1 : (chineseCount t : ℚ) ≤ (totalChars t : ℚ) := by exact_mod_cast hc
    have h2 : (alnumCount t : ℚ) ≤ (totalChars t : ℚ) := by exact_mod_cast ha
    linarith
  · unfold weirdRatio; positivity
  · unfold weirdRatio
    rw [div_le_one htot]
    exact_mod_cast hw

/-- C1, witness: the amended bounds instantiated on a concrete non-empty
text. -/
theorem C1_ratio_bounds_witness :
    0 < totalChars (String.toList "abc中") ∧
    (0 ≤ validRatio (String.toList "abc中") ∧
     validRatio (String.toList "abc中") ≤ 2 ∧
     0 ≤ weirdRatio (String.toList "abc中") ∧
     weirdRatio (String.toList "abc中") ≤ 1) :=
  ⟨by decide, C1_ratio_bounds (String.toList "abc中") (by decide)⟩

/-- C2, counterexample: a static extraction sample of 150 ASCII letters
is at least 100 characters long and carries no insufficiency flag, yet
`scrape_webpage_text` still escalates to the renderer (its
`len < 200 and chinese < 10` branch fires), so "accept as-is iff length
at least 100 and not flagged insufficient" fails. -/
theorem C2_counterexample :
    100 ≤ (List.replicate 150 'a').length ∧
    pyStartsWith (List.replicate 150 'a') warnMark = false ∧
    escalateCond (List.replicate 150 'a') = true := by
  refine ⟨by decide, by decide, ?_⟩
  rw [escalateCond_eqN]; decide

/-- C2, amended: a static extraction sample is accepted as-is (the quality
gate does not escalate to the renderer) if and only if its stripped text
is at least 100 characters long, is not flagged insufficient, is not both
shorter than 200 characters and under 10 CJK characters in its first 1000,
and is not gibberish (sample weird ratio above 0.3 with under 20 CJK
characters). -/
theorem C2_static_accept_iff (s : List Char) :
    escalateCond s = false ↔
      (100 ≤ s.length ∧ pyStartsWith s warnMark = false ∧
       ¬ (s.length < 200 ∧ sampleChinese s < 10) ∧
       ¬ (sampleWeirdRatio s > 3 / 10 ∧ sampleChinese s < 20)) := by
  simp [escalateCond, sampleIsValid, sampleGibberish, not_and, Decidable.not_not]
  tauto

/-- C7, counterexample: the stripped, non-empty line `"a"` satisfies the
claimed keep condition (valid ratio 1 > 0.8 and weird ratio 0 < 0.1), yet
the salvage loop discards it, because lines shorter than 2 characters are
skipped before the keep conditions are evaluated. -/
theorem C7_counterexample :
    pythonStrip ['a'] = ['a'] ∧ (['a'] : List Char) ≠ [] ∧
    lineKeep ['a'] = false ∧
    (3 ≤ chineseCount ['a'] ∨
      (((chineseCount ['a'] : ℚ) + (alnumCount ['a'] : ℚ)) / (List.length ['a'] : ℚ) > 4 / 5 ∧
       ((List.countP lineWeirdChar ['a'] : ℚ) / (List.length ['a'] : ℚ)) < 1 / 10)) := by
  refine ⟨by decide, by decide, ?_, Or.inr ⟨?_, ?_⟩⟩
  · rw [lineKeep_eqN]; decide
  · have hc : chineseCount ['a'] = 0 := by decide
    have ha : alnumCount ['a'] = 1 := by decide
    rw [hc, ha]; norm_num
  · have hw : List.countP lineWeirdChar ['a'] = 0 := by decide
    rw [hw]; norm_num

/-- C7, amended: a line of the extracted text is kept by the salvage loop
if and only if it is at least 2 characters long, and it contains at least
3 CJK characters or its valid-character ratio exceeds 0.8 with its
weird-character ratio (against the printable Latin-1 punctuation
allow-list) below 0.1. -/
theorem C7_line_keep_iff (line : List Char) :
    lineKeep line = true ↔
      (2 ≤ line.length ∧
       (3 ≤ chineseCount line ∨
         (((chineseCount line : ℚ) + (alnumCount line : ℚ)) / (line.length : ℚ) > 4 / 5 ∧
          ((line.countP lineWeirdChar : ℚ) / (line.length : ℚ)) < 1 / 10))) := by
  by_cases h : line.length < 2
  · simp [lineKeep, h]
  · simp [lineKeep, h]
    exact fun _ => by omega

/-- C8, counterexample: with the transport declaring the reliable
(non-Latin-1) encoding `utf-8` and the content-based detector guessing
`gb2312`, the cascade resolves to `gb2312`: the detector stage runs
unconditionally and replaces the transport declaration, contradicting the
claim that each stage runs only when the prior answer is absent or a
Latin-1 fallback. -/
theorem C8_counterexample :
    resolveEncoding ⟨some "utf-8", some "gb2312", none, fun _ => none⟩ = some "gb2312" ∧
    latin1FamilyA "utf-8" = false := by
  exact ⟨by decide, by decide⟩

/-- C8, amended: the later stages of the cascade are gated as claimed:
whenever the answer after the (unconditional) detector stage is present
and outside the Latin-1 family lists, the charset-scan, probe and
final-fallback stages leave it unchanged; but the detector stage itself
runs unconditionally and overwrites any transport declaration whenever
the detector produced a guess. -/
theorem C8_cascade_gating (env : EncodingEnv) (e : String)
    (h1 : encStage1 env = some e) (h2 : latin1FamilyB e = false) :
    resolveEncoding env = some e := by
  have hA : latin1FamilyA e = false := by
    unfold latin1FamilyB at h2
    exact (Bool.or_eq_false_iff.mp h2).1
  unfold resolveEncoding
  rw [h1]
  simp [encStage2, encStage3, encStage4, gateA, gateB, hA, h2]

/-- C8, witness: the amended gating applied to a concrete environment in
which the detector guesses `big5`. -/
theorem C8_cascade_gating_witness :
    resolveEncoding ⟨none, some "big5", none, fun _ => none⟩ = some "big5" :=
  C8_cascade_gating ⟨none, some "big5", none, fun _ => none⟩ "big5" (by decide) (by decide)

/-- C5: when the detector yields no guess, the transport default is
Latin-1, no in-document charset is declared, the full body fails strict
UTF-8 decoding, and the GBK decode succeeds with more than 50 plausible
(CJK/alphanumeric/whitespace) characters among its first 500 (the
situation of GBK-encoded Chinese bytes), the cascade resolves to `gbk`
via the probe stage — the first candidate after `utf-8` in the fixed
order `utf-8, gbk, gb2312, gb18030` — and the decoded text contains CJK
characters and no U+FFFD replacement characters.  The codec facts (strict
UTF-8 failure, GBK success with CJK output) are hypotheses, since the
codecs are Python-library behaviour, not repository code. -/
theorem C5_probe_selects_gbk (env : EncodingEnv) (t : List Char)
    (hap : env.apparentEncoding = none)
    (htr : env.transportEncoding = some "iso-8859-1")
    (hcs : env.htmlCharset = none)
    (hutf : env.decode "utf-8" = none)
    (hgbk : env.decode "gbk" = some t)
    (hscore : 50 < plausibleCount t)
    (hcjk : ∃ c ∈ t, isCJK c = true)
    (hrep : Char.ofNat 0xFFFD ∉ t) :
    resolveEncoding env = some "gbk" ∧
    (∃ c ∈ t, isCJK c = true) ∧ Char.ofNat 0xFFFD ∉ t := by
  refine ⟨?_, hcjk, hrep⟩
  have hprobe : probeEncodings env.decode probeCandidates = some "gbk" := by
    simp [probeCandidates, probeEncodings, hutf, hgbk, hscore]
  have e1 : latin1FamilyA "iso-8859-1" = true := by decide
  have e2 : latin1FamilyB "iso-8859-1" = true := by decide
  have e3 : latin1FamilyA "gbk" = false := by decide
  unfold resolveEncoding encStage1
  rw [hap, htr]
  simp [encStage2, encStage3, encStage4, hcs, hprobe, gateA, gateB, e1, e2, e3]

/-- C5, witness: the probe scenario instantiated with a concrete oracle
whose GBK decode yields sixty CJK ideographs. -/
theorem C5_probe_selects_gbk_witness :
    resolveEncoding
      ⟨some "iso-8859-1", none, none,
        fun e => if e = "gbk" then some (List.replicate 60 '中') else none⟩ =
      some "gbk" :=
  (C5_probe_selects_gbk
    ⟨some "iso-8859-1", none, none,
      fun e => if e = "gbk" then some (List.replicate 60 '中') else none⟩
    (List.replicate 60 '中') rfl rfl rfl (by decide) (by decide) (by decide)
    ⟨'中', by decide, by decide⟩ (by decide)).1

theorem fetchLoop_all_transient (out : Nat → AttemptOutcome) :
    ∀ r a,
      (∀ i, i ≤ r → out (a + i) = .timeout ∨ out (a + i) = .connError) →
      fetchLoop out a (r + 1) =
        ⟨r + 1, List.replicate r 2, some (.error (transientError (out (a + r))))⟩ := by
  intro r
  induction r with
  | zero =>
    intro a htr
    rcases htr 0 (le_refl 0) with h | h <;>
      rw [Nat.add_zero] at h <;> simp [fetchLoop, h, transientError]
  | succ r' ih =>
    intro a htr
    have h0 := htr 0 (Nat.zero_le _)
    rw [Nat.add_zero] at h0
    have hrec := ih (a + 1) (fun i hi => by
      have := htr (i + 1) (by omega)
      rwa [show a + (i + 1) = a + 1 + i by omega] at this)
    have hidx : a + 1 + r' = a + (r' + 1) := by omega
    rw [hidx] at hrec
    rcases h0 with h | h <;>
      (rw [fetchLoop, h]; simp [hrec, List.replicate_succ])

theorem fetchLoop_http (out : Nat → AttemptOutcome) :
    ∀ j r a c, j < r →
      (∀ i, i < j → out (a + i) = .timeout ∨ out (a + i) = .connError) →
      out (a + j) = .httpStatus c →
      fetchLoop out a r =
        ⟨j + 1, List.replicate j 2, some (.error (classifyHttpStatus c))⟩ := by
  intro j
  induction j with
  | zero =>
    intro r a c hjr htr hhttp
    rw [Nat.add_zero] at hhttp
    match r, hjr with
    | r' + 1, _ =>
      rw [fetchLoop, hhttp]
      simp
  | succ j' ih =>
    intro r a c hjr htr hhttp
    match r, hjr with
    | r' + 1, hjr =>
      have h0 := htr 0 (Nat.succ_pos j')
      rw [Nat.add_zero] at h0
      have hj'r : j' < r' := by omega
      have hrec := ih r' (a + 1) c hj'r
        (fun i hi => by
          have := htr (i + 1) (by omega)
          rwa [show a + (i + 1) = a + 1 + i by omega] at this)
        (by rwa [show a + 1 + j' = a + (j' + 1) by omega])
      have hr0 : r' ≠ 0 := by omega
      rcases h0 with h | h <;>
        (rw [fetchLoop, h]; simp [hr0, hrec, List.replicate_succ])

/-- C4: (i) when every attempt against a URL fails with a timeout or a
connection error, `fetch_html` with `max_retries = n` issues exactly `n`
GET attempts, sleeps the fixed 2 seconds between consecutive attempts
(`n - 1` sleeps), and then raises the typed error matching the final
attempt's failure kind; (ii) an attempt failing with an HTTP status error
(after any run of transient failures) raises the status-classified error
immediately — one attempt beyond the transients, never retried. -/
theorem C4_fetch_retry (out : Nat → AttemptOutcome) (n : Nat) :
    (0 < n →
      (∀ i, i < n → out i = .timeout ∨ out i = .connError) →
      fetch_html out n =
        ⟨n, List.replicate (n - 1) 2,
          some (.error (transientError (out (n - 1))))⟩) ∧
    (∀ j c, j < n →
      (∀ i, i < j → out i = .timeout ∨ out i = .connError) →
      out j = .httpStatus c →
      fetch_html out n =
        ⟨j + 1, List.replicate j 2, some (.error (classifyHttpStatus c))⟩) := by
  constructor
  · intro hn htr
    match n, hn with
    | n' + 1, _ =>
      have := fetchLoop_all_transient out n' 0
        (fun i hi => by simpa using htr i (by omega))
      simpa [fetch_html] using this
  · intro j c hjn htr hhttp
    have := fetchLoop_http out j n 0 c hjn
      (fun i hi => by simpa using htr i hi) (by simpa using hhttp)
    simpa [fetch_html] using this

/-- C4, witness: three sustained timeouts give three attempts, two
2-second sleeps and the timeout error; a first-attempt 403 gives one
attempt and the access-denied error. -/
theorem C4_fetch_retry_witness :
    fetch_html (fun _ => .timeout) 3 =
      ⟨3, List.replicate 2 2, some (.error .timeoutError)⟩ ∧
    fetch_html (fun _ => .httpStatus (some 403)) 3 =
      ⟨1, List.replicate 0 2, some (.error .accessDenied403)⟩ := by
  constructor
  · exact (C4_fetch_retry (fun _ => .timeout) 3).1 (by decide)
      (fun i _ => Or.inl rfl)
  · have h := (C4_fetch_retry (fun _ => .httpStatus (some 403)) 3).2 0 (some 403)
      (by decide) (fun i hi => absurd hi (Nat.not_lt_zero i)) rfl
    simpa [classifyHttpStatus] using h

/-- C3: on the static path, when the gate escalates and the renderer is
available but fails, `scrape_webpage_text` returns the original static
extraction whenever its stripped text has at least 50 characters (the
pipeline re-fetches the same URL and re-extracts, which in this
deterministic model is the original static text), and raises the
"enable rendering" guidance failure when it has fewer than 50. -/
theorem C3_render_fail_fallback (env : ScrapeEnv) (html : List Char)
    (hf : env.fetchStatic = some html) (hne : html ≠ [])
    (hesc : escalateCond (pythonStrip (env.extract html)) = true)
    (hsel : env.seleniumAvailable = true)
    (hfail : env.seleniumFetch = none) :
    (50 ≤ (pythonStrip (env.extract html)).length →
        scrape_webpage_text env = .ok (env.extract html)) ∧
    ((pythonStrip (env.extract html)).length < 50 →
        scrape_webpage_text env =
          .error (.tooLittleAfterRenderFail (pythonStrip (env.extract html)).length)) := by
  constructor
  · intro hlen
    have hnotlt : ¬ (pythonStrip (env.extract html)).length < 50 := by omega
    simp [scrape_webpage_text, hf, hne, hesc, hsel, hfail, hnotlt]
  · intro hlen
    simp [scrape_webpage_text, hf, hne, hesc, hsel, hfail, hlen]

/-- C3, witness: a 60-character static extraction (over the 50-character
floor, but escalated because it is under 100 characters) survives a
renderer failure and is returned. -/
theorem C3_render_fail_fallback_witness :
    scrape_webpage_text
        ⟨some ['x'], fun _ => List.replicate 60 'a', true, none⟩ =
      .ok (List.replicate 60 'a') :=
  (C3_render_fail_fallback
    ⟨some ['x'], fun _ => List.replicate 60 'a', true, none⟩ ['x'] rfl
    (by decide) (by simp only [escalateCond_eqN]; decide) rfl rfl).1 (by decide)

/-- C6: for non-empty extracted text, line-level salvage runs exactly
when (weirdRatio > 0.2 and validRatio < 0.5) or (fewer than 100 characters
and fewer than 5 CJK characters); when it does not run the text is
returned unchanged, and when it runs and the salvaged text still has
fewer than 10 CJK characters or a post-salvage weird ratio above 0.3,
`extract_text` returns the insufficiency guidance message instead of the
noisy text. -/
theorem C6_salvage_gate (t : List Char) (h : 0 < totalChars t) :
    (salvageTriggered t = true ↔
      ((weirdRatio t > 1 / 5 ∧ validRatio t < 1 / 2) ∨
       (totalChars t < 100 ∧ chineseCount t < 5))) ∧
    (salvageTriggered t = false → extract_text_quality t = t) ∧
    (salvageTriggered t = true →
      (chineseCount (salvageFiltered t) < 10 ∨
        ((salvageFiltered t).countP salvageWeirdChar : ℚ) /
          ((salvageFiltered t).length : ℚ) > 3 / 10) →
      extract_text_quality t = insufficientMessage) := by
  refine ⟨by simp [salvageTriggered, isGibberish, h], ?_, ?_⟩
  · intro hno
    simp [extract_text_quality, hno]
  · intro htrig hpoor
    by_cases hs : pythonStrip (salvageFiltered t) = []
    · simp [extract_text_quality, htrig, salvageResult, hs]
    · have hne : salvageFiltered t ≠ [] := by
        intro h0
        rw [h0] at hs
        exact hs rfl
      have hpos : 0 < (salvageFiltered t).length := List.length_pos.mpr hne
      simp [extract_text_quality, htrig, salvageResult, hs, hpos, hpoor]

/-- C6, witness: 80 ASCII periods (short, no CJK) trigger salvage, the
salvage keeps no line, and the extraction returns the guidance message. -/
theorem C6_salvage_gate_witness :
    extract_text_quality (List.replicate 80 '.') = insufficientMessage :=
  (C6_salvage_gate (List.replicate 80 '.') (by decide)).2.2
    (by simp only [salvageTriggered_eqN]; decide)
    (Or.inl (by simp only [salvageFiltered_eqN]; decide))

/-- C9: `extract_text` is idempotent on already-clean plain text wrapped
in a minimal content container: when the body is tag-free and clean
enough that the quality stage does not trigger salvage, re-extracting the
first extraction (now bare plain text) returns it unchanged. -/
theorem C9_extract_idempotent (tag : String) (body : List Char)
    (_hlt : '<' ∉ body)
    (hclean : salvageTriggered (pythonStrip body) = false) :
    extract_text (.plain (extract_text (.wrapped tag body))) =
      extract_text (.wrapped tag body) := by
  have h1 : extract_text (.wrapped tag body) = pythonStrip body := by
    simp [extract_text, getTextModel, extract_text_quality, hclean]
  rw [h1]
  simp [extract_text, getTextModel, pythonStrip_idem, extract_text_quality, hclean]

/-- C9, witness: idempotence on a concrete clean Chinese body inside an
`article` container. -/
theorem C9_extract_idempotent_witness :
    extract_text (.plain (extract_text
        (.wrapped "article" (String.toList "中文内容测试")))) =
      extract_text (.wrapped "article" (String.toList "中文内容测试")) :=
  C9_extract_idempotent "article" (String.toList "中文内容测试") (by decide)
    (by simp only [salvageTriggered_eqN]; decide)

theorem splitNL_ne_nil (s : List Char) : splitNL s ≠ [] := by
  induction s with
  | nil => simp [splitNL]
  | cons c rest ih =>
    rw [splitNL]
    by_cases hc : c = '\n'
    · simp [hc]
    · rw [if_neg hc]
      cases h : splitNL rest with
      | nil => simp
      | cons l ls => simp

theorem splitNL_no_nl (s : List Char) : ∀ l ∈ splitNL s, '\n' ∉ l := by
  induction s with
  | nil => intro l hl; simp [splitNL] at hl; simp [hl]
  | cons c rest ih =>
    intro l hl
    rw [splitNL] at hl
    by_cases hc : c = '\n'
    · rw [if_pos hc] at hl
      rcases List.mem_cons.mp hl with rfl | hl'
      · simp
      · exact ih l hl'
    · rw [if_neg hc] at hl
      cases h : splitNL rest with
      | nil => exact absurd h (splitNL_ne_nil rest)
      | cons l0 ls =>
        rw [h] at hl
        rcases List.mem_cons.mp hl with rfl | hl'
        · intro hmem
          rcases List.mem_cons.mp hmem with h1 | h1
          · exact hc h1.symm
          · exact ih l0 (h ▸ List.mem_cons_self l0 ls) h1
        · exact ih l (h ▸ List.mem_cons_of_mem l0 hl')

theorem splitNL_single (l : List Char) (h : '\n' ∉ l) : splitNL l = [l] := by
  induction l with
  | nil => rfl
  | cons c rest ih =>
    have hc : ¬ c = '\n' := fun hh => h (hh ▸ List.mem_cons_self c rest)
    rw [splitNL, if_neg hc, ih (fun hm => h (List.mem_cons_of_mem c hm))]

theorem splitNL_append (l : List Char) (h : '\n' ∉ l) (m : List Char) :
    splitNL (l ++ '\n' :: m) = l :: splitNL m := by
  induction l with
  | nil => simp [splitNL]
  | cons c rest ih =>
    have hc : ¬ c = '\n' := fun hh => h (hh ▸ List.mem_cons_self c rest)
    rw [List.cons_append, splitNL, if_neg hc,
      ih (fun hm => h (List.mem_cons_of_mem c hm))]

theorem splitNL_joinNL (L : List (List Char)) (hne : L ≠ [])
    (hnl : ∀ l ∈ L, '\n' ∉ l) : splitNL (joinNL L) = L := by
  induction L with
  | nil => exact absurd rfl hne
  | cons l L' ih =>
    cases L' with
    | nil => exact splitNL_single l (hnl l (List.mem_cons_self l []))
    | cons l2 ls =>
      rw [joinNL, splitNL_append l (hnl l (List.mem_cons_self _ _)),
        ih (by simp) (fun x hx => hnl x (List.mem_cons_of_mem l hx))]

theorem joinNL_ne_nil (L : List (List Char)) (hne : L ≠ [])
    (hlast : L.getLast? ≠ some []) : joinNL L ≠ [] := by
  cases L with
  | nil => exact absurd rfl hne
  | cons l L' =>
    cases L' with
    | nil =>
      rw [joinNL]
      intro h
      exact hlast (by simp [h])
    | cons l2 ls =>
      rw [joinNL]
      simp

theorem mem_stripEnd (a : Char) (l : List Char) (h : a ∈ stripEnd l) : a ∈ l := by
  induction l with
  | nil => simp [stripEnd] at h
  | cons c rest ih =>
    rw [stripEnd] at h
    by_cases hr : stripEnd rest = []
    · simp only [hr, if_pos] at h
      by_cases hc : pyIsSpace c
      · simp [hc] at h
      · simp [hc] at h
        simp [h]
    · simp only [hr, if_neg] at h
      rcases List.mem_cons.mp h with rfl | h'
      · exact List.mem_cons_self a rest
      · exact List.mem_cons_of_mem c (ih h')

theorem mem_pythonStrip (a : Char) (l : List Char) (h : a ∈ pythonStrip l) :
    a ∈ l := by
  have h1 : a ∈ l.dropWhile pyIsSpace := mem_stripEnd a _ h
  exact (List.dropWhile_sublist pyIsSpace).subset h1

theorem noTripleNL_tail (c : Char) (s : List Char)
    (h : noTripleNL (c :: s) = true) : noTripleNL s = true := by
  match s with
  | [] => rfl
  | [a] => rfl
  | a :: b :: rest =>
    rw [noTripleNL, Bool.and_eq_true] at h
    exact h.2

theorem leadingNL_le_two (s : List Char) (h : noTripleNL s = true) :
    leadingNL s ≤ 2 := by
  match s with
  | [] => simp [leadingNL]
  | [a] =>
    by_cases ha : a = '\n' <;> simp [leadingNL, ha]
  | [a, b] =>
    by_cases ha : a = '\n' <;> by_cases hb : b = '\n' <;>
      simp [leadingNL, ha, hb]
  | a :: b :: c :: rest =>
    by_cases ha : a = '\n'
    · by_cases hb : b = '\n'
      · by_cases hc : c = '\n'
        · rw [noTripleNL, ha, hb, hc] at h
          simp at h
        · simp [leadingNL, ha, hb, hc]
      · simp [leadingNL, ha, hb]
    · simp [leadingNL, ha]

theorem collapseNLAux_id (s : List Char) :
    ∀ k, k + leadingNL s ≤ 2 → noTripleNL s = true →
      collapseNLAux s k = List.replicate k '\n' ++ s := by
  induction s with
  | nil =>
    intro k hk _
    have hk2 : ¬ 3 ≤ k := by simp [leadingNL] at hk; omega
    simp [collapseNLAux, collapseNLEmit, hk2]
  | cons c rest ih =>
    intro k hk hnt
    by_cases hc : c = '\n'
    · subst hc
      rw [collapseNLAux, if_pos rfl]
      have hlead : leadingNL ('\n' :: rest) = leadingNL rest + 1 := by
        simp [leadingNL]
      rw [ih (k + 1) (by omega) (noTripleNL_tail _ _ hnt)]
      rw [show List.replicate (k + 1) '\n' = List.replicate k '\n' ++ ['\n'] from
        List.replicate_succ' k '\n']
      simp
    · have hlead : leadingNL (c :: rest) = 0 := by simp [leadingNL, hc]
      have hk2 : ¬ 3 ≤ k := by omega
      have hrest : leadingNL rest ≤ 2 :=
        leadingNL_le_two rest (noTripleNL_tail _ _ hnt)
      rw [collapseNLAux, if_neg hc,
        ih 0 (by omega) (noTripleNL_tail _ _ hnt)]
      simp [collapseNLEmit, hk2]

theorem collapseNL_id (s : List Char) (h : noTripleNL s = true) :
    collapseNL s = s := by
  have := collapseNLAux_id s 0 (by simpa using leadingNL_le_two s h) h
  simpa [collapseNL] using this

theorem noTripleNL_append (l : List Char) (hl : '\n' ∉ l) (m : List Char)
    (hm : noTripleNL m = true) : noTripleNL (l ++ m) = true := by
  induction l with
  | nil => simpa using hm
  | cons c l' ih =>
    have hc : ¬ c = '\n' := fun hh => hl (hh ▸ List.mem_cons_self c l')
    have ih' : noTripleNL (l' ++ m) = true :=
      ih (fun hmem => hl (List.mem_cons_of_mem c hmem))
    rw [List.cons_append]
    cases hlm : l' ++ m with
    | nil => rfl
    | cons a tail =>
      cases tail with
      | nil => rfl
      | cons b rest =>
        rw [noTripleNL]
        rw [hlm] at ih'
        simp [hc, ih']
theorem joinNL_head (c : Char) (l2 : List Char) (ls : List (List Char)) :
    ∃ tail, joinNL ((c :: l2) :: ls) = c :: tail := by
  cases ls with
  | nil => exact ⟨l2, rfl⟩
  | cons l3 ls' => exact ⟨l2 ++ '\n' :: joinNL (l3 :: ls'), rfl⟩

theorem noTripleNL_joinNL (L : List (List Char)) (hadj : noAdjEmpty L)
    (hnl : ∀ l ∈ L, '\n' ∉ l) :
    noTripleNL (joinNL L) = true ∧ noTripleNL ('\n' :: joinNL L) = true := by
  induction L with
  | nil => exact ⟨rfl, rfl⟩
  | cons l L' ih =>
    have hadj' : noAdjEmpty L' := hadj.tail
    have hnl' : ∀ x ∈ L', '\n' ∉ x := fun x hx => hnl x (List.mem_cons_of_mem l hx)
    have ihp := ih hadj' hnl'
    have hlnl : '\n' ∉ l := hnl l (List.mem_cons_self l L')
    have part1 : noTripleNL (joinNL (l :: L')) = true := by
      cases L' with
      | nil =>
        rw [joinNL]
        have := noTripleNL_append l hlnl [] rfl
        simpa using this
      | cons l2 ls =>
        rw [joinNL]
        exact noTripleNL_append l hlnl _ ihp.2
    refine ⟨part1, ?_⟩
    cases hl : l with
    | cons c l'' =>
      subst hl
      have hc : c ≠ '\n' := fun hh => hlnl (hh ▸ List.mem_cons_self c l'')
      obtain ⟨tail, htail⟩ := joinNL_head c l'' L'
      rw [htail]
      rw [htail] at part1
      cases tail with
      | nil => rfl
      | cons d rest =>
        rw [noTripleNL]
        simp [hc, part1]
    | nil =>
      subst hl
      cases L' with
      | nil => rfl
      | cons l2 ls =>
        have hl2 : l2 ≠ [] := by
          rcases List.chain'_cons.mp hadj with ⟨hrel, _⟩
          rcases hrel with h | h
          · exact absurd rfl h
          · exact h
        rw [joinNL, List.nil_append]
        obtain ⟨c, l'', rfl⟩ : ∃ c l'', l2 = c :: l'' := by
          cases l2 with
          | nil => exact absurd rfl hl2
          | cons c l'' => exact ⟨c, l'', rfl⟩
        have hc : c ≠ '\n' := fun hh =>
          (hnl' (c :: l'') (List.mem_cons_self _ _)) (hh ▸ List.mem_cons_self c l'')
        obtain ⟨tail, htail⟩ := joinNL_head c l'' ls
        rw [htail]
        rw [htail] at ihp
        rw [noTripleNL]
        simp [hc, ihp.2]

theorem collapseBlankLines_mem (L : List (List Char)) :
    ∀ b l, l ∈ collapseBlankLines L b → l = [] ∨ l ∈ L := by
  induction L with
  | nil => intro b l hl; simp [collapseBlankLines] at hl
  | cons x ls ih =>
    intro b l hl
    rw [collapseBlankLines] at hl
    by_cases hx : x = []
    · rw [if_pos hx] at hl
      by_cases hb : b
      · rw [if_pos hb] at hl
        rcases ih true l hl with h | h
        · exact Or.inl h
        · exact Or.inr (List.mem_cons_of_mem x h)
      · rw [if_neg hb] at hl
        rcases List.mem_cons.mp hl with rfl | hl'
        · exact Or.inl rfl
        · rcases ih true l hl' with h | h
          · exact Or.inl h
          · exact Or.inr (List.mem_cons_of_mem x h)
    · rw [if_neg hx] at hl
      rcases List.mem_cons.mp hl with rfl | hl'
      · exact Or.inr (List.mem_cons_self l ls)
      · rcases ih false l hl' with h | h
        · exact Or.inl h
        · exact Or.inr (List.mem_cons_of_mem x h)

theorem collapseBlankLines_good (L : List (List Char)) :
    ∀ b, noAdjEmpty (collapseBlankLines L b) ∧
      (b = true → (collapseBlankLines L b).head? ≠ some []) := by
  induction L with
  | nil =>
    intro b
    exact ⟨List.chain'_nil, fun _ => by simp [collapseBlankLines]⟩
  | cons x ls ih =>
    intro b
    rw [collapseBlankLines]
    by_cases hx : x = []
    · rw [if_pos hx]
      by_cases hb : b
      · rw [if_pos hb]
        exact ⟨(ih true).1, fun _ => (ih true).2 rfl⟩
      · rw [if_neg hb]
        constructor
        · rw [noAdjEmpty, List.chain'_cons']
          refine ⟨?_, (ih true).1⟩
          intro y hy
          right
          intro hy0
          exact (ih true).2 rfl (by rw [hy, hy0])
        · intro hbt
          exact absurd hbt hb
    · rw [if_neg hx]
      constructor
      · rw [noAdjEmpty, List.chain'_cons']
        exact ⟨fun y _ => Or.inl hx, (ih false).1⟩
      · intro _
        simp only [List.head?_cons]
        intro hh
        exact hx (by injection hh)

theorem collapseBlankLines_id (L : List (List Char)) :
    ∀ b, noAdjEmpty L → (b = true → L.head? ≠ some []) →
      collapseBlankLines L b = L := by
  induction L with
  | nil => intro b _ _; rfl
  | cons x ls ih =>
    intro b hadj hhead
    rw [collapseBlankLines]
    by_cases hx : x = []
    · have hb : b = false := by
        cases b with
        | false => rfl
        | true => exact absurd (by rw [hx]; rfl) (hhead rfl)
      rw [if_pos hx, hb, if_neg (by simp)]
      have hlshead : ls.head? ≠ some [] := by
        cases ls with
        | nil => simp
        | cons y ys =>
          rcases List.chain'_cons.mp hadj with ⟨hrel, _⟩
          rcases hrel with h | h
          · exact absurd hx h
          · simp only [List.head?_cons]
            intro hh
            exact h (by injection hh)
      rw [ih true hadj.tail (fun _ => hlshead), hx]
    · rw [if_neg hx, ih false hadj.tail (by simp)]
theorem head?_dropWhile {α : Type} (p : α → Bool) (X : List α) (a : α)
    (h : (X.dropWhile p).head? = some a) : p a = false := by
  induction X with
  | nil => simp [List.dropWhile] at h
  | cons c rest ih =>
    rw [List.dropWhile_cons] at h
    by_cases hc : p c
    · rw [if_pos hc] at h
      exact ih h
    · rw [if_neg hc] at h
      simp only [List.head?_cons] at h
      rw [show a = c by injection h.symm]
      simpa using hc

theorem dropTrailingBlank_getLast (L : List (List Char)) :
    (dropTrailingBlank L).getLast? ≠ some [] := by
  rw [dropTrailingBlank]
  intro h
  rw [List.getLast?_reverse] at h
  have := head?_dropWhile (fun (l : List Char) => l.isEmpty) L.reverse [] h
  simp at this

theorem dropTrailingBlank_id (L : List (List Char))
    (h : L.getLast? ≠ some []) : dropTrailingBlank L = L := by
  rw [dropTrailingBlank]
  have hdw : List.dropWhile (fun (l : List Char) => l.isEmpty) L.reverse
      = L.reverse := by
    cases hrev : L.reverse with
    | nil => rfl
    | cons y ys =>
      have hy : L.getLast? = some y := by
        rw [← List.head?_reverse, hrev]; rfl
      have hyne : y ≠ [] := fun hh => h (hh ▸ hy)
      rw [List.dropWhile_cons, if_neg (by simpa using hyne)]
  rw [hdw, List.reverse_reverse]

theorem dropTrailingBlank_mem (L : List (List Char)) (l : List Char)
    (h : l ∈ dropTrailingBlank L) : l ∈ L := by
  rw [dropTrailingBlank, List.mem_reverse] at h
  have := (List.dropWhile_sublist (fun (l : List Char) => l.isEmpty)).subset h
  rwa [List.mem_reverse] at this

theorem dropTrailingBlank_noAdj (L : List (List Char)) (h : noAdjEmpty L) :
    noAdjEmpty (dropTrailingBlank L) := by
  rw [noAdjEmpty, dropTrailingBlank, List.chain'_reverse]
  have h1 : List.Chain' (fun a b => a ≠ [] ∨ b ≠ []) L.reverse := by
    rw [List.chain'_reverse]
    apply List.Chain'.imp _ h
    intro a b hab
    rcases hab with h' | h'
    · exact Or.inr h'
    · exact Or.inl h'
  obtain ⟨t, ht⟩ :
      ∃ t, L.reverse = t ++ L.reverse.dropWhile (fun (l : List Char) => l.isEmpty) :=
    ⟨L.reverse.takeWhile (fun (l : List Char) => l.isEmpty),
      (List.takeWhile_append_dropWhile _ _).symm⟩
  rw [ht] at h1
  have h2 := (List.chain'_append.mp h1).2.1
  apply List.Chain'.imp _ h2
  intro a b hab
  rcases hab with h' | h'
  · exact Or.inr h'
  · exact Or.inl h'

theorem map_self_of_fixed {α : Type} (f : α → α) (L : List α)
    (h : ∀ l ∈ L, f l = l) : L.map f = L := by
  induction L with
  | nil => rfl
  | cons x xs ih =>
    rw [List.map_cons, h x (List.mem_cons_self x xs),
      ih (fun l hl => h l (List.mem_cons_of_mem x hl))]

theorem clean_pipeline_fixed (L : List (List Char))
    (hfix : ∀ l ∈ L, pythonStrip l = l) (hnl : ∀ l ∈ L, '\n' ∉ l)
    (hadj : noAdjEmpty L) (hlast : L.getLast? ≠ some []) :
    clean_text (joinNL L) = joinNL L := by
  by_cases hL : L = []
  · subst hL; rfl
  · have hjne : joinNL L ≠ [] := joinNL_ne_nil L hL hlast
    have hnt : noTripleNL (joinNL L) = true := (noTripleNL_joinNL L hadj hnl).1
    rw [clean_text, if_neg hjne, collapseNL_id _ hnt, splitNL_joinNL L hL hnl,
      map_self_of_fixed pythonStrip L hfix,
      collapseBlankLines_id L false hadj (by simp),
      dropTrailingBlank_id L hlast]

/-- C10: `TextProcessor.clean_text` is idempotent — its output is already
in normal form (every line trimmed, no run of more than one consecutive
blank line, no trailing blank lines, no run of three newlines), so
cleaning a second time changes nothing. -/
theorem C10_clean_text_idempotent (t : List Char) :
    clean_text (clean_text t) = clean_text t := by
  by_cases h0 : t = []
  · subst h0; rfl
  · have hM : ∀ l ∈ (splitNL (collapseNL t)).map pythonStrip,
        pythonStrip l = l ∧ '\n' ∉ l := by
      intro l hl
      obtain ⟨x, hx, rfl⟩ := List.mem_map.mp hl
      refine ⟨pythonStrip_idem x, ?_⟩
      intro hmem
      exact splitNL_no_nl _ x hx (mem_pythonStrip _ _ hmem)
    have hct : clean_text t =
        joinNL (dropTrailingBlank (collapseBlankLines
          ((splitNL (collapseNL t)).map pythonStrip) false)) := by
      rw [clean_text, if_neg h0]
    have hmemL : ∀ l ∈ dropTrailingBlank (collapseBlankLines
        ((splitNL (collapseNL t)).map pythonStrip) false),
        pythonStrip l = l ∧ '\n' ∉ l := by
      intro l hl
      have h1 := dropTrailingBlank_mem _ l hl
      rcases collapseBlankLines_mem _ false l h1 with rfl | h2
      · exact ⟨rfl, by simp⟩
      · exact hM l h2
    have hadjL := dropTrailingBlank_noAdj _
      ((collapseBlankLines_good ((splitNL (collapseNL t)).map pythonStrip)) false).1
    have hlastL := dropTrailingBlank_getLast (collapseBlankLines
      ((splitNL (collapseNL t)).map pythonStrip) false)
    rw [hct]
    exact clean_pipeline_fixed _ (fun l hl => (hmemL l hl).1)
      (fun l hl => (hmemL l hl).2) hadjL hlastL
